import Mathlib

/-!
Shallow embedding of the `go-go-web` converter (`convert.py`) and proofs
about its markdown/plain-text line transformers, HTML shell builder and
file-extension dispatcher.

Lines of the source file are cited as `convert.py:NN` next to each
definition.  Strings are modelled as `List Char`; each Python `re.sub`
call is embedded as a left-to-right scanner (`scanSub`) together with a
single-position match function (`tryX`) encoding the regular expression.
`re.sub` with the default `count=0` replaces every leftmost
non-overlapping occurrence, scanning the original text from left to
right and resuming after each match.
-/

namespace GoGoWeb

/-- Python `str.strip()` whitespace (the characters stripped by
`line.strip()` at `convert.py:126` and `convert.py:194`). -/
def pyWhitespace (c : Char) : Bool :=
  c = ' ' || c = '\t' || c = '\n' || c = '\r' || c = '\x0b' || c = '\x0c'

/-- Python `str.strip()`: remove leading and trailing whitespace. -/
def pyStrip (l : List Char) : List Char :=
  ((l.dropWhile pyWhitespace).reverse.dropWhile pyWhitespace).reverse

/-- One scanning pass of Python `re.sub` (with the default `count = 0`):
at each position try `t`; on a match emit the replacement and resume
after the matched text, otherwise copy one character and advance.  The
`Nat` argument is fuel; it is always instantiated with the length of the
text, which suffices because every match consumes at least one
character. -/
def scanSub (t : List Char → Option (List Char × List Char)) :
    Nat → List Char → List Char
  | 0, l => l
  | _ + 1, [] => []
  | n + 1, c :: rest =>
    match t (c :: rest) with
    | some (em, rem) => em ++ scanSub t n rem
    | none => c :: scanSub t n rest

/-- Python `re.sub(pattern, repl, line)` for a pattern embedded as `t`. -/
def reSub (t : List Char → Option (List Char × List Char)) (l : List Char) :
    List Char :=
  scanSub t l.length l

/-- Match of `([^*])\*([^*]+)\*` → `\1<em>\2</em>` at the current
position (`convert.py:139`).  On success returns the replacement text
and the remaining text after the closing `*`. -/
def tryEmStar : List Char → Option (List Char × List Char)
  | [] => none
  | [_] => none
  | c :: d :: rest2 =>
    if c ≠ '*' ∧ d = '*' then
      let content := rest2.takeWhile (· ≠ '*')
      let rest3 := rest2.dropWhile (· ≠ '*')
      if content ≠ [] ∧ rest3 ≠ [] then
        some (c :: ("<em>".data ++ content ++ "</em>".data), rest3.drop 1)
      else none
    else none

/-- Match of `[^_]_([^_]+)_` → `<em>\1</em>` at the current position
(`convert.py:140`).  Note the preceding character is consumed by the
match but does not appear in the replacement. -/
def tryEmUnder : List Char → Option (List Char × List Char)
  | [] => none
  | [_] => none
  | c :: d :: rest2 =>
    if c ≠ '_' ∧ d = '_' then
      let content := rest2.takeWhile (· ≠ '_')
      let rest3 := rest2.dropWhile (· ≠ '_')
      if content ≠ [] ∧ rest3 ≠ [] then
        some ("<em>".data ++ content ++ "</em>".data, rest3.drop 1)
      else none
    else none

/-- Match of `\*\*([^*]+)\*\*` → `<strong>\1</strong>` at the current
position (`convert.py:143`). -/
def tryStrongStar : List Char → Option (List Char × List Char)
  | [] => none
  | [_] => none
  | c :: d :: rest2 =>
    if c = '*' ∧ d = '*' then
      let content := rest2.takeWhile (· ≠ '*')
      let rest3 := rest2.dropWhile (· ≠ '*')
      if content ≠ [] ∧ rest3.take 2 = ['*', '*'] then
        some ("<strong>".data ++ content ++ "</strong>".data, rest3.drop 2)
      else none
    else none

/-- Match of `__([^_]+)__` → `<strong>\1</strong>` at the current
position (`convert.py:145`). -/
def tryStrongUnder : List Char → Option (List Char × List Char)
  | [] => none
  | [_] => none
  | c :: d :: rest2 =>
    if c = '_' ∧ d = '_' then
      let content := rest2.takeWhile (· ≠ '_')
      let rest3 := rest2.dropWhile (· ≠ '_')
      if content ≠ [] ∧ rest3.take 2 = ['_', '_'] then
        some ("<strong>".data ++ content ++ "</strong>".data, rest3.drop 2)
      else none
    else none

/-- `re.sub(r'([^*])\*([^*]+)\*', r'\1<em>\2</em>', line)`
(`convert.py:139`). -/
def subItalicStar (l : List Char) : List Char := reSub tryEmStar l

/-- `re.sub(r'[^_]_([^_]+)_', r'<em>\1</em>', line)` (`convert.py:140`). -/
def subItalicUnder (l : List Char) : List Char := reSub tryEmUnder l

/-- `re.sub(r'\*\*([^*]+)\*\*', r'<strong>\1</strong>', line)`
(`convert.py:143`). -/
def subBoldStar (l : List Char) : List Char := reSub tryStrongStar l

/-- `re.sub(r'__([^_]+)__', r'<strong>\1</strong>', line)`
(`convert.py:145`). -/
def subBoldUnder (l : List Char) : List Char := reSub tryStrongUnder l

/-- The pattern `^[ ]*---[-]*[ ]*$` of `convert.py:148`: optional
spaces, three or more hyphens, optional spaces, end of line. -/
def IsHr (l : List Char) : Prop :=
  let l1 := l.dropWhile (· = ' ')
  3 ≤ (l1.takeWhile (· = '-')).length ∧ ∀ c ∈ l1.dropWhile (· = '-'), c = ' '

instance (l : List Char) : Decidable (IsHr l) := by
  unfold IsHr; infer_instance

/-- `re.sub(r'^[ ]*---[-]*[ ]*$', r'<hr />', line)` (`convert.py:148`):
the anchored pattern matches the whole line or not at all. -/
def subHr (l : List Char) : List Char :=
  if IsHr l then "<hr />".data else l

/-- `re.sub(r'`(.*)`', r'<code>\1</code>', line)` (`convert.py:151`).
`(.*)` is greedy, so the single match runs from the first backtick to
the last backtick of the line; if fewer than two backticks are present
there is no match. -/
def subCode (l : List Char) : List Char :=
  let pre := l.takeWhile (· ≠ '`')
  let rest := l.dropWhile (· ≠ '`')
  match rest with
  | [] => l
  | _ :: rest2 =>
    let revRest := rest2.reverse
    let sufRev := revRest.takeWhile (· ≠ '`')
    let midRev := revRest.dropWhile (· ≠ '`')
    match midRev with
    | [] => l
    | _ :: midRev2 =>
      pre ++ "<code>".data ++ midRev2.reverse ++ "</code>".data ++ sufRev.reverse

/-- The fence-open pattern `^[ ]*```.*$` of `convert.py:131`: optional
spaces then at least three backticks, then anything. -/
def IsFenceOpen (l : List Char) : Prop :=
  (l.dropWhile (· = ' ')).take 3 = ['`', '`', '`']

instance (l : List Char) : Decidable (IsFenceOpen l) := by
  unfold IsFenceOpen; infer_instance

/-- The fence-close pattern `^[ ]*```[`]*[ ]*$` of `convert.py:157`:
optional spaces, three or more backticks, optional spaces, end. -/
def IsFenceClose (l : List Char) : Prop :=
  let l1 := l.dropWhile (· = ' ')
  3 ≤ (l1.takeWhile (· = '`')).length ∧ ∀ c ∈ l1.dropWhile (· = '`'), c = ' '

instance (l : List Char) : Decidable (IsFenceClose l) := by
  unfold IsFenceClose; infer_instance

/-- The body of the per-line loop of `markdown_to_html`
(`convert.py:123`–`169`): strip the raw line, then either handle fence
boundaries or apply the chain of inline substitutions and wrap in a
paragraph tag.  Returns the text written for this line (the loop writes
`line + '\n'`, so an empty result is a blank output line) together with
the updated `in_code_block` flag. -/
def markdownTransformLine (inCode : Bool) (raw : List Char) :
    List Char × Bool :=
  let line := pyStrip raw
  if inCode then
    if IsFenceClose line then ("</pre>".data, false)
    else (line, true)
  else
    if IsFenceOpen line then ("<pre>".data, true)
    else
      let l1 := subItalicStar line
      let l2 := subItalicUnder l1
      let l3 := subBoldStar l2
      let l4 := subBoldUnder l3
      let l5 := subHr l4
      let l6 := subCode l5
      ("<p>".data ++ l6 ++ "</p>".data, false)

/-- The whole body loop of `markdown_to_html` (`convert.py:123`–`169`):
the sequence of output lines produced for the given input lines,
starting from the given `in_code_block` flag (`False` at
`convert.py:116`). -/
def markdownBody : Bool → List (List Char) → List (List Char)
  | _, [] => []
  | inCode, l :: ls =>
    let r := markdownTransformLine inCode l
    r.1 :: markdownBody r.2 ls

/-- The value of the `in_code_block` flag just before line `i` of the
body is processed, starting from flag `b`. -/
def mdStateBefore (b : Bool) : List (List Char) → Nat → Bool
  | [], _ => b
  | _ :: _, 0 => b
  | l :: ls, i + 1 => mdStateBefore (markdownTransformLine b l).2 ls i

/-- Accumulator pass for Python `str.splitlines()` restricted to `'\n'`
separators: split the text at every newline. -/
def splitlinesAux : List Char → List Char → List (List Char)
  | [], cur => [cur.reverse]
  | c :: rest, cur =>
    if c = '\n' then cur.reverse :: splitlinesAux rest []
    else splitlinesAux rest (c :: cur)

/-- Python `str.splitlines()` on text whose only line terminator is
`'\n'` (`post.content.splitlines()` at `convert.py:123`): split at every
newline; a trailing newline does not produce a final empty line, and the
empty string yields no lines. -/
def splitlines (l : List Char) : List (List Char) :=
  if l = [] then []
  else if l.getLast? = some '\n' then (splitlinesAux l []).dropLast
  else splitlinesAux l []

/-- The body of the per-line loop of `text_to_html`
(`convert.py:191`–`204`): strip the line and wrap non-blank lines in a
paragraph tag; a blank line produces a blank output line. -/
def textTransformLine (raw : List Char) : List Char :=
  let line := pyStrip raw
  if line = [] then [] else "<p>".data ++ line ++ "</p>".data

/-- The whole body loop of `text_to_html` (`convert.py:191`–`204`): the
sequence of output lines produced for the given input lines. -/
def textBody : List (List Char) → List (List Char)
  | [] => []
  | l :: ls => textTransformLine l :: textBody ls

/-- The front-matter metadata consumed by `get_html_before_body`
(`convert.py:48`): a mapping with the four optional string keys the
builder looks up (`lang`, `title`, `keywords`, `description`). -/
structure Metadata where
  lang : Option String := none
  title : Option String := none
  keywords : Option String := none
  description : Option String := none

/-- `get_html_before_body(filename, css_url, metadata)`
(`convert.py:48`–`64`), chunk for chunk.  Python's `if css_url:` is the
non-emptiness test on the string. -/
def get_html_before_body (filename : String) (css_url : String)
    (m : Metadata) : String :=
  "<!doctype html>\n"
    ++ ("<html lang=\"" ++ (match m.lang with | some v => v | none => "en") ++ "\">\n")
    ++ "<head>\n"
    ++ "\t<meta charset=\"utf-8\">\n"
    ++ ("\t<title>" ++ (match m.title with | some v => v | none => filename) ++ "</title>\n")
    ++ (match m.keywords with
        | some k => "\t<meta name=\"keywords\" content=\"" ++ k ++ "\" />\n"
        | none => "")
    ++ (match m.description with
        | some d => "\t<meta name=\"description\" content=\"" ++ d ++ "\" />\n"
        | none => "")
    ++ "\t<meta name=\"viewport\" content=\"width=device-width, initial-scale=1\" />\n"
    ++ (if css_url ≠ "" then "\t<link rel=\"stylesheet\" href=\"" ++ css_url ++ "\">\n" else "")
    ++ "</head>\n"
    ++ "<body>\n"

/-- `get_html_after_body()` (`convert.py:67`–`71`). -/
def get_html_after_body : String :=
  "</body>\n" ++ "</html>"

/-- The head lines as the spec enumerates them, each line carried with
its terminating newline: doctype; html tag with the metadata's lang or
`en`; head; charset meta; title holding the metadata's title or the file
base name; keywords meta iff present; description meta iff present;
viewport meta; stylesheet link iff the URL is non-empty; `</head>`;
`<body>`. -/
def renderHeadSpecLines (title : String) (m : Metadata) (css : String) :
    List String :=
  ["<!doctype html>\n",
   "<html lang=\"" ++ (match m.lang with | some v => v | none => "en") ++ "\">\n",
   "<head>\n",
   "\t<meta charset=\"utf-8\">\n",
   "\t<title>" ++ (match m.title with | some v => v | none => title) ++ "</title>\n"]
  ++ (match m.keywords with
      | some k => ["\t<meta name=\"keywords\" content=\"" ++ k ++ "\" />\n"]
      | none => [])
  ++ (match m.description with
      | some d => ["\t<meta name=\"description\" content=\"" ++ d ++ "\" />\n"]
      | none => [])
  ++ ["\t<meta name=\"viewport\" content=\"width=device-width, initial-scale=1\" />\n"]
  ++ (if css ≠ "" then ["\t<link rel=\"stylesheet\" href=\"" ++ css ++ "\">\n"] else [])
  ++ ["</head>\n", "<body>\n"]

/-- The tail lines as the spec enumerates them: `</body>` then `</html>`
(the source writes no newline after `</html>`). -/
def renderTailSpecLines : List String :=
  ["</body>\n", "</html>"]

/-- `os.path.splitext(path)[1]` for POSIX paths (`convert.py:87`–`91`):
the extension starts at the last dot of the final path component,
except that dots leading that component do not begin an extension. -/
def splitextExt (p : List Char) : List Char :=
  let base := (p.reverse.takeWhile (· ≠ '/')).reverse
  let lead := base.takeWhile (· = '.')
  let rest := base.drop lead.length
  if rest.any (· = '.') then
    '.' :: (base.reverse.takeWhile (· ≠ '.')).reverse
  else []

/-- The root part of `os.path.splitext(path)` (`convert.py:90`). -/
def splitextRoot (p : List Char) : List Char :=
  p.take (p.length - (splitextExt p).length)

/-- `os.path.basename` for POSIX paths: the part after the last `/`. -/
def pyBasename (p : List Char) : List Char :=
  (p.reverse.takeWhile (· ≠ '/')).reverse

/-- The name of the output file a successful conversion creates:
`os.path.basename(file_name) + ".html"` where `file_name` is the
extension-free root (`convert.py:90`, `convert.py:110`,
`convert.py:178`). -/
def outputName (p : List Char) : List Char :=
  pyBasename (splitextRoot p) ++ ".html".data

/-- Outcome of the extension dispatch in `convert_to_html`
(`convert.py:92`–`100`): `.md` and `.txt` select a converter; any other
extension prints an error and calls `sys.exit(1)` without creating an
output file. -/
inductive ConvOutcome where
  | md
  | txt
  | err
deriving DecidableEq

/-- The extension dispatch of `convert_to_html` (`convert.py:92`–`100`). -/
def convertMode (p : List Char) : ConvOutcome :=
  if splitextExt p = ".md".data then ConvOutcome.md
  else if splitextExt p = ".txt".data then ConvOutcome.txt
  else ConvOutcome.err

/-- The directory loop of `__main__` (`convert.py:292`–`300`): each item
is passed to `convert_to_html` in order.  On an unsupported extension
`convert_to_html` calls `sys.exit(1)` (`convert.py:100`), which ends the
whole process.  Returns the list of output file names created and
whether the run was aborted by such an exit. -/
def runDir : List (List Char) → List (List Char) × Bool
  | [] => ([], false)
  | p :: rest =>
    match convertMode p with
    | ConvOutcome.err => ([], true)
    | _ =>
      let r := runDir rest
      (outputName p :: r.1, r.2)

/-! ### Helper lemmas about the scanner -/

/-- A match function consumes at least one character. -/
def Shrinks (t : List Char → Option (List Char × List Char)) : Prop :=
  ∀ l e r, t l = some (e, r) → r.length < l.length

theorem length_dropWhile_le (p : Char → Bool) :
    (l : List Char) → (l.dropWhile p).length ≤ l.length
  | [] => Nat.le_refl _
  | c :: rest => by
    rw [List.dropWhile_cons]
    split
    · exact Nat.le_succ_of_le (length_dropWhile_le p rest)
    · exact Nat.le_refl _

theorem scanSub_congr (t : List Char → Option (List Char × List Char))
    (ht : Shrinks t) :
    ∀ n₁ n₂ l, l.length ≤ n₁ → l.length ≤ n₂ →
      scanSub t n₁ l = scanSub t n₂ l := by
  intro n₁
  induction n₁ with
  | zero =>
    intro n₂ l h1 _
    have hl : l = [] := List.length_eq_zero.mp (Nat.le_zero.mp h1)
    subst hl
    cases n₂ <;> rfl
  | succ n ih =>
    intro n₂ l h1 h2
    cases l with
    | nil => cases n₂ <;> rfl
    | cons c rest =>
      cases n₂ with
      | zero => simp at h2
      | succ m =>
        simp only [scanSub]
        cases hmatch : t (c :: rest) with
        | none =>
          have hr1 : rest.length ≤ n := Nat.lt_succ_iff.mp h1
          have hr2 : rest.length ≤ m := Nat.lt_succ_iff.mp h2
          show c :: scanSub t n rest = c :: scanSub t m rest
          rw [ih m rest hr1 hr2]
        | some pr =>
          obtain ⟨e, rem⟩ := pr
          have hlt := ht _ _ _ hmatch
          have hr1 : rem.length ≤ n :=
            Nat.lt_succ_iff.mp (Nat.lt_of_lt_of_le hlt h1)
          have hr2 : rem.length ≤ m :=
            Nat.lt_succ_iff.mp (Nat.lt_of_lt_of_le hlt h2)
          show e ++ scanSub t n rem = e ++ scanSub t m rem
          rw [ih m rem hr1 hr2]

theorem reSub_cons_none (t : List Char → Option (List Char × List Char))
    {c : Char} {rest : List Char} (h : t (c :: rest) = none) :
    reSub t (c :: rest) = c :: reSub t rest := by
  show scanSub t (rest.length + 1) (c :: rest) = _
  simp only [scanSub]
  rw [h]
  rfl

theorem reSub_match (t : List Char → Option (List Char × List Char))
    (ht : Shrinks t) {l e rem : List Char} (h : t l = some (e, rem)) :
    reSub t l = e ++ reSub t rem := by
  cases l with
  | nil =>
    have := ht _ _ _ h
    simp at this
  | cons c rest =>
    show scanSub t (rest.length + 1) (c :: rest) = _
    simp only [scanSub]
    rw [h]
    have hlt := ht _ _ _ h
    have hle : rem.length ≤ rest.length := Nat.lt_succ_iff.mp hlt
    exact congrArg (e ++ ·)
      (scanSub_congr t ht rest.length rem.length rem hle (Nat.le_refl _))

theorem tryEmStar_shrinks : Shrinks tryEmStar := by
  intro l e r h
  match l with
  | [] => simp [tryEmStar] at h
  | [c] => simp [tryEmStar] at h
  | c :: d :: rest2 =>
    simp only [tryEmStar] at h
    split at h
    · split at h
      · simp only [Option.some.injEq, Prod.mk.injEq] at h
        have hr : r = (rest2.dropWhile (· ≠ '*')).drop 1 := h.2.symm
        have h1 : ((rest2.dropWhile (· ≠ '*')).drop 1).length ≤
            rest2.length := by
          have := length_dropWhile_le (· ≠ '*') rest2
          simp only [List.length_drop]
          omega
        simp only [hr, List.length_cons]
        omega
      · exact absurd h (by simp)
    · exact absurd h (by simp)

theorem tryEmUnder_shrinks : Shrinks tryEmUnder := by
  intro l e r h
  match l with
  | [] => simp [tryEmUnder] at h
  | [c] => simp [tryEmUnder] at h
  | c :: d :: rest2 =>
    simp only [tryEmUnder] at h
    split at h
    · split at h
      · simp only [Option.some.injEq, Prod.mk.injEq] at h
        have hr : r = (rest2.dropWhile (· ≠ '_')).drop 1 := h.2.symm
        have h1 := length_dropWhile_le (· ≠ '_') rest2
        simp only [hr, List.length_cons, List.length_drop]
        omega
      · exact absurd h (by simp)
    · exact absurd h (by simp)

theorem tryStrongStar_shrinks : Shrinks tryStrongStar := by
  intro l e r h
  match l with
  | [] => simp [tryStrongStar] at h
  | [c] => simp [tryStrongStar] at h
  | c :: d :: rest2 =>
    simp only [tryStrongStar] at h
    split at h
    · split at h
      · simp only [Option.some.injEq, Prod.mk.injEq] at h
        have hr : r = (rest2.dropWhile (· ≠ '*')).drop 2 := h.2.symm
        have h1 := length_dropWhile_le (· ≠ '*') rest2
        simp only [hr, List.length_cons, List.length_drop]
        omega
      · exact absurd h (by simp)
    · exact absurd h (by simp)

theorem tryStrongUnder_shrinks : Shrinks tryStrongUnder := by
  intro l e r h
  match l with
  | [] => simp [tryStrongUnder] at h
  | [c] => simp [tryStrongUnder] at h
  | c :: d :: rest2 =>
    simp only [tryStrongUnder] at h
    split at h
    · split at h
      · simp only [Option.some.injEq, Prod.mk.injEq] at h
        have hr : r = (rest2.dropWhile (· ≠ '_')).drop 2 := h.2.symm
        have h1 := length_dropWhile_le (· ≠ '_') rest2
        simp only [hr, List.length_cons, List.length_drop]
        omega
      · exact absurd h (by simp)
    · exact absurd h (by simp)

theorem tryEmStar_none_snd {c d : Char} {rest2 : List Char} (h : d ≠ '*') :
    tryEmStar (c :: d :: rest2) = none := by
  simp [tryEmStar, h]

theorem tryEmUnder_none_snd {c d : Char} {rest2 : List Char} (h : d ≠ '_') :
    tryEmUnder (c :: d :: rest2) = none := by
  simp [tryEmUnder, h]

theorem tryStrongStar_none_fst {c : Char} {rest : List Char} (h : c ≠ '*') :
    tryStrongStar (c :: rest) = none := by
  cases rest <;> simp [tryStrongStar, h]

theorem tryStrongUnder_none_fst {c : Char} {rest : List Char} (h : c ≠ '_') :
    tryStrongUnder (c :: rest) = none := by
  cases rest <;> simp [tryStrongUnder, h]

theorem subItalicStar_eq_self {l : List Char} (h : '*' ∉ l) :
    subItalicStar l = l := by
  induction l with
  | nil => rfl
  | cons c rest ih =>
    have hnone : tryEmStar (c :: rest) = none := by
      cases rest with
      | nil => rfl
      | cons d rest2 =>
        have hd : d ≠ '*' := by
          intro hx
          exact h (by simp [hx])
        exact tryEmStar_none_snd hd
    show reSub tryEmStar (c :: rest) = c :: rest
    rw [reSub_cons_none _ hnone]
    have : '*' ∉ rest := fun hx => h (List.mem_cons_of_mem _ hx)
    exact congrArg (c :: ·) (ih this)

theorem subItalicUnder_eq_self {l : List Char} (h : '_' ∉ l) :
    subItalicUnder l = l := by
  induction l with
  | nil => rfl
  | cons c rest ih =>
    have hnone : tryEmUnder (c :: rest) = none := by
      cases rest with
      | nil => rfl
      | cons d rest2 =>
        have hd : d ≠ '_' := by
          intro hx
          exact h (by simp [hx])
        exact tryEmUnder_none_snd hd
    show reSub tryEmUnder (c :: rest) = c :: rest
    rw [reSub_cons_none _ hnone]
    have : '_' ∉ rest := fun hx => h (List.mem_cons_of_mem _ hx)
    exact congrArg (c :: ·) (ih this)

theorem subBoldStar_eq_self {l : List Char} (h : '*' ∉ l) :
    subBoldStar l = l := by
  induction l with
  | nil => rfl
  | cons c rest ih =>
    have hc : c ≠ '*' := by
      intro hx
      exact h (by simp [hx])
    show reSub tryStrongStar (c :: rest) = c :: rest
    rw [reSub_cons_none _ (tryStrongStar_none_fst hc)]
    have : '*' ∉ rest := fun hx => h (List.mem_cons_of_mem _ hx)
    exact congrArg (c :: ·) (ih this)

theorem subBoldUnder_eq_self {l : List Char} (h : '_' ∉ l) :
    subBoldUnder l = l := by
  induction l with
  | nil => rfl
  | cons c rest ih =>
    have hc : c ≠ '_' := by
      intro hx
      exact h (by simp [hx])
    show reSub tryStrongUnder (c :: rest) = c :: rest
    rw [reSub_cons_none _ (tryStrongUnder_none_fst hc)]
    have : '_' ∉ rest := fun hx => h (List.mem_cons_of_mem _ hx)
    exact congrArg (c :: ·) (ih this)

theorem takeWhile_all_cons {p : Char → Bool} {a : List Char} {b : Char}
    {bs : List Char} (h : ∀ x ∈ a, p x = true) (hb : p b = false) :
    (a ++ b :: bs).takeWhile p = a := by
  induction a with
  | nil => simp [List.takeWhile_cons, hb]
  | cons x xs ih =>
    have hx : p x = true := h x (by simp)
    have hxs : ∀ y ∈ xs, p y = true := fun y hy => h y (by simp [hy])
    simp only [List.cons_append, List.takeWhile_cons_of_pos hx]
    rw [ih hxs]

theorem dropWhile_all_cons {p : Char → Bool} {a : List Char} {b : Char}
    {bs : List Char} (h : ∀ x ∈ a, p x = true) (hb : p b = false) :
    (a ++ b :: bs).dropWhile p = b :: bs := by
  induction a with
  | nil => simp [List.dropWhile_cons, hb]
  | cons x xs ih =>
    have hx : p x = true := h x (by simp)
    have hxs : ∀ y ∈ xs, p y = true := fun y hy => h y (by simp [hy])
    simp only [List.cons_append, List.dropWhile_cons_of_pos hx]
    exact ih hxs

theorem tryEmStar_match (c : Char) (content rest : List Char)
    (hc : c ≠ '*') (hcon : content ≠ []) (hconS : ∀ x ∈ content, x ≠ '*') :
    tryEmStar (c :: '*' :: (content ++ '*' :: rest)) =
      some (c :: ("<em>".data ++ content ++ "</em>".data), rest) := by
  have hall : ∀ x ∈ content, (fun y => y ≠ '*' : Char → Bool) x = true := by
    intro x hx
    simpa using hconS x hx
  have hstar : (fun y => y ≠ '*' : Char → Bool) '*' = false := by decide
  simp only [tryEmStar]
  rw [if_pos ⟨hc, trivial⟩]
  rw [takeWhile_all_cons hall hstar, dropWhile_all_cons hall hstar]
  rw [if_pos ⟨hcon, by simp⟩]
  rfl

theorem tryEmUnder_match (c : Char) (content rest : List Char)
    (hc : c ≠ '_') (hcon : content ≠ []) (hconS : ∀ x ∈ content, x ≠ '_') :
    tryEmUnder (c :: '_' :: (content ++ '_' :: rest)) =
      some ("<em>".data ++ content ++ "</em>".data, rest) := by
  have hall : ∀ x ∈ content, (fun y => y ≠ '_' : Char → Bool) x = true := by
    intro x hx
    simpa using hconS x hx
  have hund : (fun y => y ≠ '_' : Char → Bool) '_' = false := by decide
  simp only [tryEmUnder]
  rw [if_pos ⟨hc, trivial⟩]
  rw [takeWhile_all_cons hall hund, dropWhile_all_cons hall hund]
  rw [if_pos ⟨hcon, by simp⟩]
  rfl

theorem subItalicStar_step (pre : List Char) (c : Char)
    (content rest : List Char)
    (hpre : ∀ x ∈ pre, x ≠ '*') (hc : c ≠ '*') (hcon : content ≠ [])
    (hconS : ∀ x ∈ content, x ≠ '*') :
    subItalicStar (pre ++ c :: '*' :: (content ++ '*' :: rest)) =
      pre ++ ((c :: ("<em>".data ++ content ++ "</em>".data)) ++
        subItalicStar rest) := by
  induction pre with
  | nil =>
    simp only [List.nil_append]
    exact reSub_match tryEmStar tryEmStar_shrinks
      (tryEmStar_match c content rest hc hcon hconS)
  | cons a pre₂ ih =>
    have hpre₂ : ∀ x ∈ pre₂, x ≠ '*' := fun x hx => hpre x (by simp [hx])
    have hnone :
        tryEmStar (a :: (pre₂ ++ c :: '*' :: (content ++ '*' :: rest))) =
          none := by
      cases pre₂ with
      | nil => exact tryEmStar_none_snd hc
      | cons a₂ pre₃ => exact tryEmStar_none_snd (hpre a₂ (by simp))
    show subItalicStar (a :: (pre₂ ++ c :: '*' :: (content ++ '*' :: rest))) = _
    show reSub tryEmStar (a :: (pre₂ ++ c :: '*' :: (content ++ '*' :: rest))) = _
    rw [reSub_cons_none _ hnone]
    show a :: subItalicStar (pre₂ ++ c :: '*' :: (content ++ '*' :: rest)) = _
    rw [ih hpre₂]
    simp

theorem subItalicUnder_step (pre : List Char) (c : Char)
    (content rest : List Char)
    (hpre : ∀ x ∈ pre, x ≠ '_') (hc : c ≠ '_') (hcon : content ≠ [])
    (hconS : ∀ x ∈ content, x ≠ '_') :
    subItalicUnder (pre ++ c :: '_' :: (content ++ '_' :: rest)) =
      pre ++ (("<em>".data ++ content ++ "</em>".data) ++
        subItalicUnder rest) := by
  induction pre with
  | nil =>
    simp only [List.nil_append]
    exact reSub_match tryEmUnder tryEmUnder_shrinks
      (tryEmUnder_match c content rest hc hcon hconS)
  | cons a pre₂ ih =>
    have hpre₂ : ∀ x ∈ pre₂, x ≠ '_' := fun x hx => hpre x (by simp [hx])
    have hnone :
        tryEmUnder (a :: (pre₂ ++ c :: '_' :: (content ++ '_' :: rest))) =
          none := by
      cases pre₂ with
      | nil => exact tryEmUnder_none_snd hc
      | cons a₂ pre₃ => exact tryEmUnder_none_snd (hpre a₂ (by simp))
    show subItalicUnder (a :: (pre₂ ++ c :: '_' :: (content ++ '_' :: rest))) = _
    show reSub tryEmUnder (a :: (pre₂ ++ c :: '_' :: (content ++ '_' :: rest))) = _
    rw [reSub_cons_none _ hnone]
    show a :: subItalicUnder (pre₂ ++ c :: '_' :: (content ++ '_' :: rest)) = _
    rw [ih hpre₂]
    simp

theorem subCode_eq_self {l : List Char} (h : '`' ∉ l) : subCode l = l := by
  have hdrop : l.dropWhile (· ≠ '`') = [] := by
    rw [List.dropWhile_eq_nil_iff]
    intro x hx
    simp only [ne_eq, decide_not, Bool.not_eq_true', decide_eq_false_iff_not]
    intro hx2
    exact h (hx2 ▸ hx)
  unfold subCode
  rw [hdrop]

theorem markdownBody_length (b : Bool) (lines : List (List Char)) :
    (markdownBody b lines).length = lines.length := by
  induction lines generalizing b with
  | nil => rfl
  | cons l ls ih => simp [markdownBody, ih]

theorem markdownBody_get (lines : List (List Char)) :
    ∀ (b : Bool) (i : Nat) (h : i < lines.length)
      (h2 : i < (markdownBody b lines).length),
      (markdownBody b lines).get ⟨i, h2⟩ =
        (markdownTransformLine (mdStateBefore b lines i)
          (lines.get ⟨i, h⟩)).1 := by
  induction lines with
  | nil =>
    intro b i h
    simp at h
  | cons l ls ih =>
    intro b i h h2
    cases i with
    | zero => rfl
    | succ j =>
      have hj : j < ls.length := Nat.lt_of_succ_lt_succ h
      have hj2 : j < (markdownBody (markdownTransformLine b l).2 ls).length := by
        rw [markdownBody_length]
        exact hj
      exact ih (markdownTransformLine b l).2 j hj hj2

theorem textBody_eq_map (lines : List (List Char)) :
    textBody lines = lines.map textTransformLine := by
  induction lines with
  | nil => rfl
  | cons l ls ih => simp [textBody, ih]

theorem dropWhile_space_replicate_dash (n : Nat) :
    (List.replicate n '-').dropWhile (· = ' ') = List.replicate n '-' := by
  cases n with
  | zero => rfl
  | succ m =>
    rw [List.replicate_succ]
    rw [List.dropWhile_cons_of_neg (by decide)]

theorem isHr_replicate {n : Nat} (h : 3 ≤ n) : IsHr (List.replicate n '-') := by
  unfold IsHr
  rw [dropWhile_space_replicate_dash]
  constructor
  · rw [List.takeWhile_replicate]
    simp [h]
  · rw [List.dropWhile_replicate]
    simp

theorem not_isFenceOpen_replicate_dash (n : Nat) :
    ¬ IsFenceOpen (List.replicate n '-') := by
  intro hcon
  unfold IsFenceOpen at hcon
  rw [dropWhile_space_replicate_dash, List.take_replicate] at hcon
  have hmem : '`' ∈ List.replicate (min 3 n) '-' := by
    rw [hcon]
    simp
  have := List.eq_of_mem_replicate hmem
  simp at this

theorem star_not_mem_replicate_dash (n : Nat) :
    '*' ∉ List.replicate n '-' := by
  intro hmem
  have := List.eq_of_mem_replicate hmem
  simp at this

theorem underscore_not_mem_replicate_dash (n : Nat) :
    '_' ∉ List.replicate n '-' := by
  intro hmem
  have := List.eq_of_mem_replicate hmem
  simp at this

theorem mdLine_inCode_not_close {l : List Char}
    (h : ¬ IsFenceClose (pyStrip l)) :
    markdownTransformLine true l = (pyStrip l, true) := by
  unfold markdownTransformLine
  rw [if_pos rfl, if_neg h]

theorem mdLine_inCode_close {l : List Char} (h : IsFenceClose (pyStrip l)) :
    markdownTransformLine true l = ("</pre>".data, false) := by
  unfold markdownTransformLine
  rw [if_pos rfl, if_pos h]

theorem mdLine_fence_open {l : List Char} (h : IsFenceOpen (pyStrip l)) :
    markdownTransformLine false l = ("<pre>".data, true) := by
  unfold markdownTransformLine
  rw [if_neg (by simp), if_pos h]

/-! ### Claims -/

set_option maxRecDepth 4000

/-- C1: in markdown mode, every line processed while the fence flag is
set and which is not a fence-close line is emitted as its trimmed text
verbatim (no paragraph wrapping, no emphasis/strong/hr/code
substitution); a fence-close line (trimmed: three-or-more backticks
followed only by further backticks and spaces, per `IsFenceClose`) is
emitted as `</pre>`; a fence-open line met outside a fence is emitted
as `<pre>`. -/
theorem c1_fence_content_verbatim (lines : List (List Char)) (i : Nat)
    (h : i < lines.length) (h2 : i < (markdownBody false lines).length) :
    (mdStateBefore false lines i = true →
      ¬ IsFenceClose (pyStrip (lines.get ⟨i, h⟩)) →
      (markdownBody false lines).get ⟨i, h2⟩ = pyStrip (lines.get ⟨i, h⟩)) ∧
    (mdStateBefore false lines i = true →
      IsFenceClose (pyStrip (lines.get ⟨i, h⟩)) →
      (markdownBody false lines).get ⟨i, h2⟩ = "</pre>".data) ∧
    (mdStateBefore false lines i = false →
      IsFenceOpen (pyStrip (lines.get ⟨i, h⟩)) →
      (markdownBody false lines).get ⟨i, h2⟩ = "<pre>".data) := by
  rw [markdownBody_get lines false i h h2]
  refine ⟨fun hst hf => ?_, fun hst hf => ?_, fun hst hf => ?_⟩ <;> rw [hst]
  · rw [mdLine_inCode_not_close hf]
  · rw [mdLine_inCode_close hf]
  · rw [mdLine_fence_open hf]

/-- Witness for C1: in the document ```` ``` / *a* _b_ `c` / ``` ````
the middle line is inside the fence and is emitted verbatim, untouched
by the emphasis, underscore and code rules. -/
theorem c1_fence_content_verbatim_witness :
    (markdownBody false ["```".data, "*a* _b_ `c`".data, "```".data]).get
        ⟨1, by decide⟩ = "*a* _b_ `c`".data := by
  have h := (c1_fence_content_verbatim
    ["```".data, "*a* _b_ `c`".data, "```".data] 1 (by decide) (by decide)).1
    (by decide) (by decide)
  rw [h]
  decide

/-- C2: the markdown body `"Hello\n---\n**Bold**\n*Italics*\n"` produces
exactly the four body lines `<p>Hello</p>`, `<p><hr /></p>`,
`<p><strong>Bold</strong></p>`, `<p>*Italics*</p>` in that order; in
particular the `*Italics*` line is not converted because no non-asterisk
character precedes the opening marker at line start. -/
theorem c2_simple_markdown_scenario :
    markdownBody false (splitlines "Hello\n---\n**Bold**\n*Italics*\n".data) =
      ["<p>Hello</p>".data, "<p><hr /></p>".data,
       "<p><strong>Bold</strong></p>".data, "<p>*Italics*</p>".data] := by
  decide

/-- Counterexample to C3: a blank source line outside a code fence is
emitted as `<p></p>` (the paragraph wrap at `convert.py:154` happens
before the emptiness test at `convert.py:164`), not as a blank output
line. -/
theorem c3_blank_line_counterexample :
    markdownBody false ["a".data, [], "b".data] =
        ["<p>a</p>".data, "<p></p>".data, "<p>b</p>".data] ∧
      "<p></p>".data ≠ ([] : List Char) := by decide

/-- C3 amended: a source line that is blank after trimming is emitted as
the empty paragraph `<p></p>` when it occurs outside a code fence, and
as a single blank output line only when it occurs inside a code fence. -/
theorem c3_blank_line_amended (l : List Char) (h : pyStrip l = []) :
    markdownTransformLine false l = ("<p></p>".data, false) ∧
      markdownTransformLine true l = ([], true) := by
  unfold markdownTransformLine
  rw [h]
  decide

/-- Witness for the amended C3 at the whitespace-only line `"  "`. -/
theorem c3_blank_line_amended_witness :
    pyStrip "  ".data = [] ∧
      (markdownTransformLine false "  ".data = ("<p></p>".data, false) ∧
        markdownTransformLine true "  ".data = ([], true)) :=
  ⟨by decide, c3_blank_line_amended "  ".data (by decide)⟩

/-- Counterexample to C4: on the line `a *x* b *y*`, which carries two
qualifying asterisk-italic spans, the second span is also rewritten
(Python `re.sub` with default `count=0` replaces every non-overlapping
occurrence), contradicting the claim that later spans stay unmodified. -/
theorem c4_single_span_counterexample :
    (markdownTransformLine false "a *x* b *y*".data).1 =
        "<p>a <em>x</em> b <em>y</em></p>".data ∧
      (markdownTransformLine false "a *x* b *y*".data).1 ≠
        "<p>a <em>x</em> b *y*</p>".data := by decide

/-- C4 amended: the asterisk-italic rule rewrites every qualifying
`*...*` span on the line, scanning left to right over non-overlapping
matches (each match also consumes the character before the opening
`*`); in particular a line with two disjoint qualifying spans has both
rewritten. -/
theorem c4_all_spans_rewritten (p : List Char) (c₁ : Char) (b q : List Char)
    (c₂ : Char) (d t : List Char)
    (hp : ∀ x ∈ p, x ≠ '*') (hc₁ : c₁ ≠ '*') (hb : b ≠ [])
    (hbS : ∀ x ∈ b, x ≠ '*') (hq : ∀ x ∈ q, x ≠ '*') (hc₂ : c₂ ≠ '*')
    (hd : d ≠ []) (hdS : ∀ x ∈ d, x ≠ '*') (ht : ∀ x ∈ t, x ≠ '*') :
    subItalicStar
        (p ++ c₁ :: '*' :: (b ++ '*' :: (q ++ c₂ :: '*' :: (d ++ '*' :: t)))) =
      p ++ ((c₁ :: ("<em>".data ++ b ++ "</em>".data)) ++
        (q ++ ((c₂ :: ("<em>".data ++ d ++ "</em>".data)) ++ t))) := by
  rw [subItalicStar_step p c₁ b _ hp hc₁ hb hbS]
  rw [subItalicStar_step q c₂ d t hq hc₂ hd hdS]
  rw [subItalicStar_eq_self (fun hmem => (ht '*' hmem) rfl)]

/-- Witness for the amended C4: both spans of `a*x* b*y*` become
emphasis spans. -/
theorem c4_all_spans_rewritten_witness :
    subItalicStar "a*x* b*y*".data = "a<em>x</em> b<em>y</em>".data := by
  have h := c4_all_spans_rewritten [] 'a' ['x'] [' '] 'b' ['y'] []
    (by decide) (by decide) (by decide) (by decide) (by decide) (by decide)
    (by decide) (by decide) (by decide)
  exact h

/-- C5: for every title, metadata mapping and stylesheet URL, the head
builder emits exactly, in fixed order: doctype; html tag with the
metadata's lang or `en`; head; charset meta; title holding the
metadata's title or the file base name; a keywords meta line iff the
keywords key is present; a description meta line iff the description
key is present; viewport meta; a stylesheet link line iff the URL is
non-empty; `</head>`; `<body>`.  The tail builder emits exactly
`</body>` then `</html>`. -/
theorem c5_head_tail_builder (filename css : String) (m : Metadata) :
    get_html_before_body filename css m =
        String.join (renderHeadSpecLines filename m css) ∧
      get_html_after_body = String.join renderTailSpecLines := by
  constructor
  · rcases m with ⟨lang, title, kw, desc⟩
    cases lang <;> cases title <;> cases kw <;> cases desc <;>
      by_cases hcss : css = "" <;>
      simp [get_html_before_body, renderHeadSpecLines, String.join, hcss,
        String.append_assoc]
  · simp [get_html_after_body, renderTailSpecLines, String.join]

/-- C6: in plain-text mode every non-blank trimmed source line is
emitted wrapped in exactly one `<p>...</p>` tag, in the original order
and otherwise verbatim (no inline substitution), and every blank source
line is emitted as a blank output line. -/
theorem c6_text_mode_lines (lines : List (List Char)) :
    (textBody lines).length = lines.length ∧
      ∀ (i : Nat) (h : i < lines.length) (h2 : i < (textBody lines).length),
        (textBody lines).get ⟨i, h2⟩ =
          (if pyStrip (lines.get ⟨i, h⟩) = [] then []
           else "<p>".data ++ pyStrip (lines.get ⟨i, h⟩) ++ "</p>".data) := by
  constructor
  · rw [textBody_eq_map]
    simp
  · intro i h h2
    simp [textBody_eq_map, textTransformLine]

/-- Witness for C6 on the document `"Hello " / "" / "x"`. -/
theorem c6_text_mode_lines_witness :
    (textBody ["Hello ".data, [], "x".data]).length = 3 ∧
      (textBody ["Hello ".data, [], "x".data]).get ⟨0, by decide⟩ =
        "<p>Hello</p>".data := by
  have h := c6_text_mode_lines ["Hello ".data, [], "x".data]
  refine ⟨h.1, ?_⟩
  have h2 := h.2 0 (by decide) (by decide)
  rw [h2]
  decide

/-- Counterexample to C7: converting the directory listing
`[a.rst, b.md]` aborts at `a.rst` (`sys.exit(1)` at `convert.py:100`),
so no output file is created at all and the sibling `b.md` is never
converted, contradicting the claim that processing continues. -/
theorem c7_continue_after_error_counterexample :
    runDir ["a.rst".data, "b.md".data] = ([], true) ∧
      "b.html".data ∉ (runDir ["a.rst".data, "b.md".data]).1 := by decide

/-- C7 amended: a file whose extension is neither `.md` nor `.txt` is
reported as an error and no output file is created for it, but the run
is aborted by `sys.exit(1)`: only the files listed before it are
converted and every sibling after it is left unprocessed. -/
theorem c7_unsupported_ext_aborts (pre : List (List Char)) (p : List Char)
    (rest : List (List Char))
    (hpre : ∀ q ∈ pre, convertMode q ≠ ConvOutcome.err)
    (hp : convertMode p = ConvOutcome.err) :
    runDir (pre ++ p :: rest) = (pre.map outputName, true) := by
  induction pre with
  | nil => simp [runDir, hp]
  | cons q pre₂ ih =>
    have hq := hpre q (by simp)
    have hpre₂ : ∀ r ∈ pre₂, convertMode r ≠ ConvOutcome.err :=
      fun r hr => hpre r (by simp [hr])
    cases hcm : convertMode q with
    | err => exact absurd hcm hq
    | md =>
      show runDir (q :: (pre₂ ++ p :: rest)) = _
      simp [runDir, hcm, ih hpre₂]
    | txt =>
      show runDir (q :: (pre₂ ++ p :: rest)) = _
      simp [runDir, hcm, ih hpre₂]

/-- Witness for the amended C7: in `[x.md, a.rst, b.md]` only `x.md` is
converted before the abort. -/
theorem c7_unsupported_ext_aborts_witness :
    convertMode "a.rst".data = ConvOutcome.err ∧
      runDir ["x.md".data, "a.rst".data, "b.md".data] =
        (["x.html".data], true) := by
  refine ⟨by decide, ?_⟩
  have h := c7_unsupported_ext_aborts ["x.md".data] "a.rst".data ["b.md".data]
    (by decide) (by decide)
  exact h.trans (by decide)

/-- C8: a markdown line outside a code fence that trims to three or
more hyphens is emitted exactly as `<p><hr /></p>`: the horizontal-rule
substitution replaces the whole line and the result is then wrapped in
the paragraph tag. -/
theorem c8_hr_line (l : List Char) (n : Nat) (h3 : 3 ≤ n)
    (h : pyStrip l = List.replicate n '-') :
    markdownTransformLine false l = ("<p><hr /></p>".data, false) := by
  unfold markdownTransformLine
  rw [h]
  rw [if_neg (by simp), if_neg (not_isFenceOpen_replicate_dash n)]
  show ("<p>".data ++
      subCode (subHr (subBoldUnder (subBoldStar (subItalicUnder
        (subItalicStar (List.replicate n '-')))))) ++ "</p>".data, false) = _
  rw [subItalicStar_eq_self (star_not_mem_replicate_dash n)]
  rw [subItalicUnder_eq_self (underscore_not_mem_replicate_dash n)]
  rw [subBoldStar_eq_self (star_not_mem_replicate_dash n)]
  rw [subBoldUnder_eq_self (underscore_not_mem_replicate_dash n)]
  unfold subHr
  rw [if_pos (isHr_replicate h3)]
  rw [subCode_eq_self (by decide)]
  rfl

/-- Witness for C8 at the line `" ----  "`. -/
theorem c8_hr_line_witness :
    pyStrip " ----  ".data = List.replicate 4 '-' ∧
      markdownTransformLine false " ----  ".data =
        ("<p><hr /></p>".data, false) :=
  ⟨by decide, c8_hr_line " ----  ".data 4 (by decide) (by decide)⟩

/-- C9: when the underscore-italic rule fires, the character
immediately preceding the opening underscore is consumed by the match
but not reproduced in the replacement, so it is deleted from the
output; e.g. `a _x_` becomes `<p>a<em>x</em></p>` with the space
removed, while the asterisk rule on `a *x*` preserves the space. -/
theorem c9_underscore_deletes_preceding (pre : List Char) (c : Char)
    (content rest : List Char)
    (hpre : ∀ x ∈ pre, x ≠ '_') (hc : c ≠ '_') (hcon : content ≠ [])
    (hconS : ∀ x ∈ content, x ≠ '_') :
    (subItalicUnder (pre ++ c :: '_' :: (content ++ '_' :: rest)) =
        pre ++ (("<em>".data ++ content ++ "</em>".data) ++
          subItalicUnder rest)) ∧
      (markdownTransformLine false "a _x_".data).1 =
        "<p>a<em>x</em></p>".data ∧
      (markdownTransformLine false "a *x*".data).1 =
        "<p>a <em>x</em></p>".data :=
  ⟨subItalicUnder_step pre c content rest hpre hc hcon hconS,
   by decide, by decide⟩

/-- Witness for C9: `a _x_` loses the space before the underscore. -/
theorem c9_underscore_deletes_preceding_witness :
    subItalicUnder "a _x_".data = "a<em>x</em>".data := by
  have h := (c9_underscore_deletes_preceding ['a'] ' ' ['x'] []
    (by decide) (by decide) (by decide) (by decide)).1
  exact h

/-- C10: on a line whose backticks are an opening one, an arbitrary
middle (possibly holding further backticks) and a closing one, the
inline-code rule produces a single `<code>...</code>` element spanning
from the first backtick to the last backtick of the line (the `(.*)`
group is greedy). -/
theorem c10_code_greedy (a m c : List Char)
    (ha : ∀ x ∈ a, x ≠ '`') (hc : ∀ x ∈ c, x ≠ '`') :
    subCode (a ++ '`' :: (m ++ '`' :: c)) =
      a ++ ("<code>".data ++ (m ++ ("</code>".data ++ c))) := by
  have hallA : ∀ x ∈ a, (fun y => y ≠ '`' : Char → Bool) x = true := by
    intro x hx
    simpa using ha x hx
  have hbt : (fun y => y ≠ '`' : Char → Bool) '`' = false := by decide
  have hallC : ∀ x ∈ c.reverse, (fun y => y ≠ '`' : Char → Bool) x = true := by
    intro x hx
    simpa using hc x (List.mem_reverse.mp hx)
  unfold subCode
  simp only [takeWhile_all_cons hallA hbt, dropWhile_all_cons hallA hbt]
  simp only [List.reverse_append, List.reverse_cons, List.append_assoc,
    List.singleton_append, List.cons_append, List.nil_append]
  simp only [takeWhile_all_cons hallC hbt, dropWhile_all_cons hallC hbt]
  simp [List.append_assoc]

/-- Witness for C10: the two apparent spans of `` x `a` `b` y `` merge
into one code element. -/
theorem c10_code_greedy_witness :
    subCode "x `a` `b` y".data = "x <code>a` `b</code> y".data := by
  have h := c10_code_greedy "x ".data "a` `b".data " y".data
    (by decide) (by decide)
  exact h

end GoGoWeb
